import Mathlib

/-!
# Wochenbericht: week-report navigation (js/navigation.js)

A shallow embedding of the DOM-ready callback of `js/navigation.js`.

* JavaScript strings are lists of characters (`Str`).
* The values that flow through the script are `null`, `NaN` and integers (`Value`).
* The network is a probe oracle: the outcome of a HEAD request may depend on the URL and on
  the log of all requests issued before it.
* The browser state records the HEAD requests issued, the assignments made to
  `window.location.href`, and whether the current event had `preventDefault()` called on it.
* The three elements `prevLink`, `nextLink`, `homeLink` are taken to be present in the document.
-/

namespace Wochenbericht

/-- A JavaScript string, as the list of its characters. -/
abbrev Str := List Char

/-! ## Numbers and their text -/

/-- The values held by the numeric variables of the script: `null`, `NaN`, or an integer.
The integers stand for JavaScript numbers, which they do exactly within the safe range
(see `IsSafeInteger`). -/
inductive Value where
  | null : Value
  | nan : Value
  | num (n : Int) : Value
deriving DecidableEq, Repr

/-- The decimal digit character of `d` (for `d < 10`). -/
def digitChar (d : Nat) : Char := Char.ofNat (48 + d)

/-- Decimal digits of a natural number, most significant first; `fuel` bounds the recursion. -/
def decimalDigits : Nat → Nat → Str
  | 0, _ => []
  | fuel + 1, n =>
    if n < 10 then [digitChar n] else decimalDigits fuel (n / 10) ++ [digitChar (n % 10)]

/-- Decimal text of a natural number (`n + 1` recursion steps always suffice). -/
def natToString (n : Nat) : Str := decimalDigits (n + 1) n

/-- A safe integer of JavaScript (`Number.isSafeInteger`): magnitude below 2^53. Such a number
is held exactly and a template literal writes it in plain decimal. -/
def IsSafeInteger (n : Int) : Prop := -9007199254740992 < n ∧ n < 9007199254740992

instance (n : Int) : Decidable (IsSafeInteger n) :=
  inferInstanceAs (Decidable (-9007199254740992 < n ∧ n < 9007199254740992))

/-- Text of a safe integer as produced by a template literal: plain decimal, `-` for
negatives. Outside the safe range a JavaScript number is rounded and, from 10^21 on, written
with an exponent (`1e+21`); this definition does not follow that, and it is only used on safe
integers: parsed weeks and years, the loop variable, and a year known to be safe. -/
def numberToString : Int → Str
  | Int.ofNat m => natToString m
  | Int.negSucc m => '-' :: natToString (m + 1)

/-- Text of a value inside a template literal. -/
def Value.toStr : Value → Str
  | Value.null => ['n', 'u', 'l', 'l']
  | Value.nan => ['N', 'a', 'N']
  | Value.num n => numberToString n

/-- JavaScript truthiness: `null`, `NaN` and `0` are falsy. -/
def Value.truthy : Value → Bool
  | Value.null => false
  | Value.nan => false
  | Value.num n => n != 0

/-- The value of `v + k` for an integer `k`, also used for `v - 1` as `v + (-1)`: in
arithmetic `null` counts as `0` and `NaN` stays `NaN`. -/
def Value.addInt : Value → Int → Value
  | Value.null, k => Value.num k
  | Value.nan, _ => Value.nan
  | Value.num n, k => Value.num (n + k)

/-- The class `\d`: an ASCII decimal digit. -/
def isDigit (c : Char) : Bool := c.isDigit

/-- Numeric value of a string of decimal digits. -/
def decimalValue (ds : Str) : Nat :=
  ds.foldl (fun acc c => 10 * acc + (c.toNat - 48)) 0

/-- The call `parseInt(s)` on a string that starts with its digits: the longest run of leading
decimal digits is read in base 10; without any leading digit the result is `NaN`.
(White space, a sign and a `0x` marker in front are not part of this embedding: the script
only passes the digit groups captured by the regular expression.) -/
def parseInt (s : Str) : Value :=
  match s.takeWhile isDigit with
  | [] => Value.nan
  | d :: ds => Value.num (decimalValue (d :: ds))

/-! ## File names -/

/-- The text `kw_`. -/
def litKw : Str := ['k', 'w', '_']

/-- The text `_`. -/
def litSep : Str := ['_']

/-- The text `.html`. -/
def litHtml : Str := ['.', 'h', 't', 'm', 'l']

/-- The text `index.html`. -/
def indexHtml : Str := ['i', 'n', 'd', 'e', 'x', '.', 'h', 't', 'm', 'l']

/-- The template literal with a week and a year filled in: kw_, week, _, year, .html. -/
def kwURL (kw year : Value) : Str :=
  litKw ++ kw.toStr ++ litSep ++ year.toStr ++ litHtml

/-- The expression `window.location.pathname.split("/").pop()`: the part of the path after
its last slash (the whole path when it has none). -/
def currentFile (pathname : Str) : Str :=
  (pathname.reverse.takeWhile (fun c => c != '/')).reverse

/-- Match the literal `lit` at the start of `s`; the rest of `s` on success. -/
def dropLit : Str → Str → Option Str
  | [], s => some s
  | _ :: _, [] => none
  | l :: ls, c :: cs => if l = c then dropLit ls cs else none

/-- Match exactly `n` decimal digits at the start of `s`: the digits and the rest. -/
def takeDigits : Nat → Str → Option (Str × Str)
  | 0, s => some ([], s)
  | _ + 1, [] => none
  | n + 1, c :: cs =>
    if isDigit c then
      match takeDigits n cs with
      | some (ds, rest) => some (c :: ds, rest)
      | none => none
    else none

/-- The part of the pattern after the week group, `_(\d{4})\.html`, matched at the start of
`s`, with the week group already captured. -/
def matchAfterWeek (week s : Str) : Option (Str × Str) :=
  match dropLit litSep s with
  | none => none
  | some s1 =>
    match takeDigits 4 s1 with
    | none => none
    | some (year, s2) =>
      match dropLit litHtml s2 with
      | none => none
      | some _ => some (week, year)

/-- The week group `(\d{1,2})` followed by the rest of the pattern: the quantifier is greedy,
so two digits are tried first and one digit only when that attempt fails. -/
def matchWeek (s : Str) : Option (Str × Str) :=
  let two :=
    match takeDigits 2 s with
    | none => none
    | some (week, rest) => matchAfterWeek week rest
  match two with
  | some m => some m
  | none =>
    match takeDigits 1 s with
    | none => none
    | some (week, rest) => matchAfterWeek week rest

/-- The pattern `kw_(\d{1,2})_(\d{4})\.html` matched with its first character at the start of
`s`: the two captured groups. -/
def matchAt (s : Str) : Option (Str × Str) :=
  match dropLit litKw s with
  | none => none
  | some s1 => matchWeek s1

/-- The call `currentFile.match(/kw_(\d{1,2})_(\d{4})\.html/)`: the pattern carries no anchor,
so the match may start at any position; the leftmost one wins. The result holds the groups
`kwMatch[1]` and `kwMatch[2]`, or is `none` for `null`. -/
def kwMatch : Str → Option (Str × Str)
  | [] => matchAt []
  | c :: cs =>
    match matchAt (c :: cs) with
    | some m => some m
    | none => kwMatch cs

/-- The three kinds of page the script tells apart. -/
inductive PageIdentity where
  | weekPage (week year : Value) : PageIdentity
  | indexPage : PageIdentity
  | otherPage : PageIdentity
deriving DecidableEq, Repr

/-- The dispatch of the script on the current file name: the `if (kwMatch)`, the
`else if (currentFile === "index.html" || currentFile === "")` and the final `else`. -/
def parseIdentity (currentFile : Str) : PageIdentity :=
  match kwMatch currentFile with
  | some (g1, g2) => PageIdentity.weekPage (parseInt g1) (parseInt g2)
  | none =>
    if currentFile = indexHtml ∨ currentFile = [] then PageIdentity.indexPage
    else PageIdentity.otherPage

/-! ## The network and the browser -/

/-- The response object of a completed request; the script reads only its `ok` flag. -/
structure Response where
  ok : Bool
deriving DecidableEq, Repr

/-- The outcome of `await fetch(url, { method: "HEAD" })`: the promise is rejected (the await
throws) or fulfilled with a response. -/
inductive FetchOutcome where
  | rejected : FetchOutcome
  | fulfilled (response : Response) : FetchOutcome
deriving DecidableEq, Repr

/-- A probe oracle: the outcome of a HEAD request, given the log of the requests issued before
it (oldest first) and the requested URL. -/
abbrev Oracle := List Str → Str → FetchOutcome

/-- An exception travelling up through the script. -/
inductive Thrown where
  | fetchFailed : Thrown
deriving DecidableEq, Repr

/-- The observable state of the page. -/
structure Browser where
  /-- URLs of the HEAD requests issued so far, oldest first -/
  requests : List Str
  /-- values assigned to `window.location.href` so far, oldest first -/
  navigations : List Str
  /-- whether `preventDefault()` was called on the event being dispatched -/
  defaultPrevented : Bool
deriving DecidableEq, Repr

/-- A piece of script run against the page: it completes normally with a value or abruptly
with an exception, and leaves a new page state. -/
abbrev Script (α : Type) := Browser → Except Thrown α × Browser

/-- The call `fetch(url, { method: "HEAD" })`, awaited: the request is logged and the oracle
decides between a thrown exception and a response. -/
def fetchHead (net : Oracle) (url : Str) : Script Response := fun s =>
  let s1 := { s with requests := s.requests ++ [url] }
  match net s.requests url with
  | FetchOutcome.rejected => (Except.error Thrown.fetchFailed, s1)
  | FetchOutcome.fulfilled response => (Except.ok response, s1)

/-- The function `pageExists`: `try { ... return response.ok } catch { return false }`. -/
def pageExists (net : Oracle) (url : Str) : Script Bool := fun s =>
  match fetchHead net url s with
  | (Except.ok response, s1) => (Except.ok response.ok, s1)
  | (Except.error _, s1) => (Except.ok false, s1)

/-- The assignment `window.location.href = url`. -/
def setHref (url : Str) (s : Browser) : Browser :=
  { s with navigations := s.navigations ++ [url] }

/-- The call `e.preventDefault()`. -/
def preventDefault (s : Browser) : Browser :=
  { s with defaultPrevented := true }

/-- The object `{ first, last }` returned by `findFirstAndLastWeek`. -/
structure WeekRange where
  first : Value
  last : Value
deriving DecidableEq, Repr

/-- The `for (let kw = ...; kw <= 53; kw++)` loop of `findFirstAndLastWeek`, entered with the
loop variable at `kw` and the two locals at `first` and `last`, followed by the `return`. -/
def findLoop (net : Oracle) (year : Int) (kw : Nat) (first last : Value) :
    Script WeekRange := fun s =>
  if kw ≤ 53 then
    let url := kwURL (Value.num kw) (Value.num year)
    match pageExists net url s with
    | (Except.error e, s1) => (Except.error e, s1)
    | (Except.ok true, s1) =>
      findLoop net year (kw + 1) (if !first.truthy then Value.num kw else first)
        (Value.num kw) s1
    | (Except.ok false, s1) => findLoop net year (kw + 1) first last s1
  else (Except.ok { first := first, last := last }, s)
termination_by 54 - kw

/-- The function `findFirstAndLastWeek`: both locals start as `null`, the loop starts at 1. -/
def findFirstAndLastWeek (net : Oracle) (year : Int) : Script WeekRange :=
  findLoop net year 1 Value.null Value.null

/-! ## Click listeners -/

/-- A click listener. -/
abbrev Handler := Script Unit

/-- The listeners bound to the three links when the set-up has run to completion (with the
promise of the index branch settled); `none` when no listener was added to the link. -/
structure Bindings where
  prev : Option Handler
  next : Option Handler
  home : Option Handler

/-- The listener of the week branch for the neighbour `url`: `e.preventDefault()`, then
`if (await pageExists(url)) location.href = url; else location.href = "index.html"`. -/
def weekHandler (net : Oracle) (url : Str) : Handler := fun s =>
  match pageExists net url (preventDefault s) with
  | (Except.error e, s1) => (Except.error e, s1)
  | (Except.ok true, s1) => (Except.ok (), setHref url s1)
  | (Except.ok false, s1) => (Except.ok (), setHref indexHtml s1)

/-- The listener of the index branch for `week` (the discovered `last` or `first`):
`if (week) window.location.href = kw_<week>_<year>.html`. -/
def indexHandler (week : Value) (year : Int) : Handler := fun s =>
  if week.truthy then (Except.ok (), setHref (kwURL week (Value.num year)) s)
  else (Except.ok (), s)

/-- The listener of the final `else` branch: `() => window.location.href = "index.html"`. -/
def otherHandler : Handler := fun s => (Except.ok (), setHref indexHtml s)

/-- The listener of the Home link: `e.preventDefault()`, then `location.href = "index.html"`. -/
def homeHandler : Handler := fun s => (Except.ok (), setHref indexHtml (preventDefault s))

/-- The DOM-ready callback for the current file name, run until nothing is pending. -/
def setup (net : Oracle) (currentFile : Str) (s : Browser) : Bindings × Browser :=
  match kwMatch currentFile with
  | some (g1, g2) =>
    let currentKW := parseInt g1
    let currentYear := parseInt g2
    let prevKW := currentKW.addInt (-1)
    let nextKW := currentKW.addInt 1
    let prevURL := kwURL prevKW currentYear
    let nextURL := kwURL nextKW currentYear
    ({ prev := some (weekHandler net prevURL), next := some (weekHandler net nextURL),
       home := some homeHandler }, s)
  | none =>
    if currentFile = indexHtml ∨ currentFile = [] then
      let year : Int := 2025
      match findFirstAndLastWeek net year s with
      | (Except.ok range, s1) =>
        ({ prev := some (indexHandler range.last year),
           next := some (indexHandler range.first year), home := some homeHandler }, s1)
      | (Except.error _, s1) => ({ prev := none, next := none, home := some homeHandler }, s1)
    else
      ({ prev := some otherHandler, next := some otherHandler, home := some homeHandler }, s)

/-- The DOM-ready callback for the page at `pathname`. -/
def onDOMContentLoaded (net : Oracle) (pathname : Str) (s : Browser) : Bindings × Browser :=
  setup net (currentFile pathname) s

/-- The three links. -/
inductive Button where
  | previous : Button
  | next : Button
  | home : Button
deriving DecidableEq, Repr

/-- The listener bound to a link. -/
def Bindings.listener (b : Bindings) : Button → Option Handler
  | Button.previous => b.prev
  | Button.next => b.next
  | Button.home => b.home

/-- A click on a link: a fresh event is dispatched to the listener bound to it, if any. -/
def click (b : Bindings) (button : Button) (s : Browser) : Browser :=
  let s0 := { s with defaultPrevented := false }
  match b.listener button with
  | none => s0
  | some handler => (handler s0).2

/-- A sequence of clicks, one after the other. -/
def clicks (b : Bindings) (buttons : List Button) (s : Browser) : Browser :=
  buttons.foldl (fun st button => click b button st) s

/-- The page right after loading: nothing requested, nothing assigned. -/
def Browser.fresh : Browser := { requests := [], navigations := [], defaultPrevented := false }

/-- The oracle under which exactly the URLs in `present` exist; every other request is
answered with a response that is not ok. -/
def oracleOf (present : List Str) : Oracle := fun _ url =>
  FetchOutcome.fulfilled { ok := decide (url ∈ present) }

/-! ## Forms of file names, in the words of the specification -/

/-- A string of decimal digits only. -/
def AllDigits (ds : Str) : Prop := ∀ c ∈ ds, isDigit c = true

/-- The file name is exactly kw_, 1 or 2 decimal digits, _, 4 decimal digits, .html, with
nothing before or after; `w` and `y` are the two digit groups. -/
def IsWeekName (w y s : Str) : Prop :=
  (w.length = 1 ∨ w.length = 2) ∧ AllDigits w ∧ y.length = 4 ∧ AllDigits y ∧
    s = litKw ++ w ++ litSep ++ y ++ litHtml

instance (ds : Str) : Decidable (AllDigits ds) :=
  inferInstanceAs (Decidable (∀ c ∈ ds, isDigit c = true))

instance (w y s : Str) : Decidable (IsWeekName w y s) :=
  inferInstanceAs (Decidable ((w.length = 1 ∨ w.length = 2) ∧ AllDigits w ∧ y.length = 4 ∧
    AllDigits y ∧ s = litKw ++ w ++ litSep ++ y ++ litHtml))

/-- The file name holds, at some position, a stretch of the week-name form. -/
def ContainsWeekName (s : Str) : Prop :=
  ∃ before w y mid after, IsWeekName w y mid ∧ s = before ++ mid ++ after

/-! ## Probes, in the words of the specification -/

/-- The probe reports existence: the request for `url`, issued when `log` holds the earlier
requests, completes with a response whose `ok` flag is set. -/
def probeSucceeds (net : Oracle) (log : List Str) (url : Str) : Bool :=
  decide (net log url = FetchOutcome.fulfilled { ok := true })

/-- The week-page URLs of `year` for the `n` weeks from `kw` on, in ascending order. -/
def weekURLs (year : Int) (kw n : Nat) : List Str :=
  (List.range' kw n).map (fun (k : Nat) => kwURL (Value.num (k : Int)) (Value.num year))

/-- The probe for week `k` succeeds, in a scan of the weeks from 1 upwards that starts when
`base` is the log of earlier requests. -/
def weekExists (net : Oracle) (year : Int) (base : List Str) (k : Nat) : Bool :=
  probeSucceeds net (base ++ weekURLs year 1 (k - 1)) (kwURL (Value.num k) (Value.num year))

/-- The earliest week among 1..53 that satisfies `p`, as a value; `null` when there is none. -/
def scanFirst (p : Nat → Bool) : Value :=
  match (List.range' 1 53).find? p with
  | some k => Value.num k
  | none => Value.null

/-- The latest week among 1..53 that satisfies `p`, as a value; `null` when there is none. -/
def scanLast (p : Nat → Bool) : Value :=
  match (List.range' 1 53).reverse.find? p with
  | some k => Value.num k
  | none => Value.null

/-! ## Decimal text -/

theorem decimalDigits_fuel (f1 : Nat) : ∀ (f2 n : Nat), n < f1 → n < f2 →
    decimalDigits f1 n = decimalDigits f2 n := by
  induction f1 with
  | zero => intro f2 n h; omega
  | succ f1 ih =>
    intro f2 n h1 h2
    cases f2 with
    | zero => omega
    | succ f2 =>
      simp only [decimalDigits]
      by_cases hn : n < 10
      · simp [hn]
      · simp only [hn, if_false]
        have hd : n / 10 < n := Nat.div_lt_self (by omega) (by omega)
        rw [ih f2 (n / 10) (by omega) (by omega)]

theorem natToString_eq (n : Nat) :
    natToString n =
      if n < 10 then [digitChar n] else natToString (n / 10) ++ [digitChar (n % 10)] := by
  by_cases hn : n < 10
  · simp [natToString, decimalDigits, hn]
  · have hd : n / 10 < n := Nat.div_lt_self (by omega) (by omega)
    have h1 : natToString n = decimalDigits n (n / 10) ++ [digitChar (n % 10)] := by
      simp [natToString, decimalDigits, hn]
    rw [h1, if_neg hn]
    unfold natToString
    rw [decimalDigits_fuel n (n / 10 + 1) (n / 10) hd (by omega)]

theorem isDigit_digitChar : ∀ d, d < 10 → isDigit (digitChar d) = true := by decide

theorem toNat_digitChar : ∀ d, d < 10 → (digitChar d).toNat - 48 = d := by decide

theorem decimalValue_concat (ds : Str) (c : Char) :
    decimalValue (ds ++ [c]) = 10 * decimalValue ds + (c.toNat - 48) := by
  simp [decimalValue, List.foldl_append]

theorem decimalValue_natToString (n : Nat) : decimalValue (natToString n) = n := by
  induction n using Nat.strong_induction_on with
  | _ n ih =>
    rw [natToString_eq]
    by_cases hn : n < 10
    · simp only [hn, if_true]
      have := toNat_digitChar n hn
      simp [decimalValue, this]
    · simp only [hn, if_false]
      have hd : n / 10 < n := Nat.div_lt_self (by omega) (by omega)
      rw [decimalValue_concat, ih (n / 10) hd, toNat_digitChar (n % 10) (Nat.mod_lt _ (by omega))]
      omega

theorem allDigits_natToString (n : Nat) : AllDigits (natToString n) := by
  induction n using Nat.strong_induction_on with
  | _ n ih =>
    rw [natToString_eq]
    by_cases hn : n < 10
    · simp only [hn, if_true]
      intro c hc
      simp only [List.mem_singleton] at hc
      subst hc
      exact isDigit_digitChar n hn
    · simp only [hn, if_false]
      have hd : n / 10 < n := Nat.div_lt_self (by omega) (by omega)
      intro c hc
      rcases List.mem_append.mp hc with h | h
      · exact ih (n / 10) hd c h
      · simp only [List.mem_singleton] at h
        subst h
        exact isDigit_digitChar (n % 10) (Nat.mod_lt _ (by omega))

theorem natToString_length (n : Nat) :
    (natToString n).length = if n < 10 then 1 else (natToString (n / 10)).length + 1 := by
  rw [natToString_eq]
  by_cases hn : n < 10
  · simp [hn]
  · simp [hn]

theorem natToString_length_small (n : Nat) (h : n < 100) :
    (natToString n).length = 1 ∨ (natToString n).length = 2 := by
  rw [natToString_length]
  by_cases hn : n < 10
  · simp [hn]
  · right
    simp only [hn, if_false]
    rw [natToString_length]
    have : n / 10 < 10 := by omega
    simp [this]

theorem natToString_length_four (n : Nat) (h1 : 1000 ≤ n) (h2 : n < 10000) :
    (natToString n).length = 4 := by
  rw [natToString_length, if_neg (by omega), natToString_length, if_neg (by omega),
    natToString_length, if_neg (by omega), natToString_length, if_pos (by omega)]

theorem natToString_injective (a b : Nat) (h : natToString a = natToString b) : a = b := by
  rw [← decimalValue_natToString a, ← decimalValue_natToString b, h]

/-! ## The pattern -/

theorem parseInt_digits (ds : Str) (hne : ds ≠ []) (h : AllDigits ds) :
    parseInt ds = Value.num (decimalValue ds) := by
  unfold parseInt
  have : ds.takeWhile isDigit = ds := List.takeWhile_eq_self_iff.mpr h
  rw [this]
  cases ds with
  | nil => exact absurd rfl hne
  | cons d ds => rfl

theorem dropLit_append (lit rest : Str) : dropLit lit (lit ++ rest) = some rest := by
  induction lit with
  | nil => rfl
  | cons l ls ih => simp [dropLit, ih]

theorem dropLit_some (lit : Str) : ∀ (s rest : Str), dropLit lit s = some rest →
    s = lit ++ rest := by
  induction lit with
  | nil => intro s rest h; simpa [dropLit] using h
  | cons l ls ih =>
    intro s rest h
    cases s with
    | nil => simp [dropLit] at h
    | cons c cs =>
      simp only [dropLit] at h
      by_cases hc : l = c
      · simp only [hc, if_true] at h
        simp [hc, ih cs rest h]
      · simp [hc] at h

theorem takeDigits_append (ds rest : Str) (h : AllDigits ds) :
    takeDigits ds.length (ds ++ rest) = some (ds, rest) := by
  induction ds with
  | nil => rfl
  | cons d ds ih =>
    have hd : isDigit d = true := h d (List.mem_cons_self _ _)
    have ht : AllDigits ds := fun c hc => h c (List.mem_cons_of_mem _ hc)
    simp [takeDigits, hd, ih ht]

theorem takeDigits_some (n : Nat) : ∀ (s ds rest : Str), takeDigits n s = some (ds, rest) →
    s = ds ++ rest ∧ ds.length = n ∧ AllDigits ds := by
  induction n with
  | zero =>
    intro s ds rest h
    simp only [takeDigits, Option.some.injEq, Prod.mk.injEq] at h
    obtain ⟨h1, h2⟩ := h
    subst h1 h2
    exact ⟨rfl, rfl, fun c hc => by simp at hc⟩
  | succ n ih =>
    intro s ds rest h
    cases s with
    | nil => simp [takeDigits] at h
    | cons c cs =>
      simp only [takeDigits] at h
      by_cases hc : isDigit c = true
      · simp only [hc, if_true] at h
        cases hrec : takeDigits n cs with
        | none => simp [hrec] at h
        | some pr =>
          obtain ⟨ds1, rest1⟩ := pr
          simp only [hrec, Option.some.injEq, Prod.mk.injEq] at h
          obtain ⟨h1, h2⟩ := h
          subst h1 h2
          obtain ⟨e1, e2, e3⟩ := ih cs ds1 rest1 hrec
          refine ⟨by simp [e1], by simp [e2], ?_⟩
          intro x hx
          rcases List.mem_cons.mp hx with hx | hx
          · subst hx; exact hc
          · exact e3 x hx
      · simp [hc] at h

theorem matchAfterWeek_exact (week y rest : Str) (hy : y.length = 4) (hyd : AllDigits y) :
    matchAfterWeek week (litSep ++ y ++ litHtml ++ rest) = some (week, y) := by
  unfold matchAfterWeek
  have e1 : litSep ++ y ++ litHtml ++ rest = litSep ++ (y ++ (litHtml ++ rest)) := by simp
  have e2 := takeDigits_append y (litHtml ++ rest) hyd
  rw [hy] at e2
  simp [e1, dropLit_append, e2]

theorem matchWeek_exact (w y rest : Str) (hw : w.length = 1 ∨ w.length = 2)
    (hwd : AllDigits w) (hy : y.length = 4) (hyd : AllDigits y) :
    matchWeek (w ++ litSep ++ y ++ litHtml ++ rest) = some (w, y) := by
  have e1 : w ++ litSep ++ y ++ litHtml ++ rest = w ++ (litSep ++ y ++ litHtml ++ rest) := by
    simp
  have hafter := matchAfterWeek_exact w y rest hy hyd
  have htake := takeDigits_append w (litSep ++ y ++ litHtml ++ rest) hwd
  rcases hw with h1 | h2
  · -- one digit: the attempt with two digits stops at the separator
    rw [h1] at htake
    obtain ⟨a, rfl⟩ := List.length_eq_one.mp h1
    have htwo : takeDigits 2 ([a] ++ (litSep ++ y ++ litHtml ++ rest)) = none := by
      have ha : isDigit a = true := hwd a (List.mem_singleton.mpr rfl)
      have hs : isDigit '_' = false := by decide
      simp [takeDigits, litSep, ha, hs]
    unfold matchWeek
    rw [e1]
    simp only [htwo, htake, hafter]
  · rw [h2] at htake
    unfold matchWeek
    rw [e1]
    simp only [htake, hafter]

theorem matchAt_exact (w y rest : Str) (hw : w.length = 1 ∨ w.length = 2)
    (hwd : AllDigits w) (hy : y.length = 4) (hyd : AllDigits y) :
    matchAt (litKw ++ w ++ litSep ++ y ++ litHtml ++ rest) = some (w, y) := by
  have e1 : litKw ++ w ++ litSep ++ y ++ litHtml ++ rest =
      litKw ++ (w ++ litSep ++ y ++ litHtml ++ rest) := by simp
  unfold matchAt
  rw [e1, dropLit_append]
  exact matchWeek_exact w y rest hw hwd hy hyd

theorem kwMatch_of_matchAt (s : Str) (m : Str × Str) (h : matchAt s = some m) :
    kwMatch s = some m := by
  cases s with
  | nil => simpa [kwMatch] using h
  | cons c cs => simp [kwMatch, h]

theorem matchAfterWeek_some (week s w y : Str) (h : matchAfterWeek week s = some (w, y)) :
    w = week ∧ y.length = 4 ∧ AllDigits y ∧ ∃ rest, s = litSep ++ y ++ litHtml ++ rest := by
  unfold matchAfterWeek at h
  cases h1 : dropLit litSep s with
  | none => simp [h1] at h
  | some s1 =>
    simp only [h1] at h
    cases h2 : takeDigits 4 s1 with
    | none => simp [h2] at h
    | some pr =>
      obtain ⟨year, s2⟩ := pr
      simp only [h2] at h
      cases h3 : dropLit litHtml s2 with
      | none => simp [h3] at h
      | some s3 =>
        simp only [h3, Option.some.injEq, Prod.mk.injEq] at h
        obtain ⟨hw, hy⟩ := h
        subst hw hy
        obtain ⟨e2, l2, d2⟩ := takeDigits_some 4 s1 year s2 h2
        refine ⟨rfl, l2, d2, s3, ?_⟩
        rw [dropLit_some litSep s s1 h1, e2, dropLit_some litHtml s2 s3 h3]
        simp

theorem matchWeek_some (s w y : Str) (h : matchWeek s = some (w, y)) :
    (w.length = 1 ∨ w.length = 2) ∧ AllDigits w ∧ y.length = 4 ∧ AllDigits y ∧
      ∃ rest, s = w ++ litSep ++ y ++ litHtml ++ rest := by
  have key : ∀ n, (n = 1 ∨ n = 2) → ∀ week rest, takeDigits n s = some (week, rest) →
      matchAfterWeek week rest = some (w, y) →
      (w.length = 1 ∨ w.length = 2) ∧ AllDigits w ∧ y.length = 4 ∧ AllDigits y ∧
        ∃ rest, s = w ++ litSep ++ y ++ litHtml ++ rest := by
    intro n hn week rest ht ha
    obtain ⟨e1, l1, d1⟩ := takeDigits_some n s week rest ht
    obtain ⟨hw, l2, d2, post, e2⟩ := matchAfterWeek_some week rest w y ha
    subst hw
    refine ⟨by omega, d1, l2, d2, post, ?_⟩
    rw [e1, e2]
    simp
  unfold matchWeek at h
  cases h2 : takeDigits 2 s with
  | some pr =>
    obtain ⟨week, rest⟩ := pr
    simp only [h2] at h
    cases ha : matchAfterWeek week rest with
    | some m =>
      simp only [ha, Option.some.injEq] at h
      subst h
      exact key 2 (Or.inr rfl) week rest h2 ha
    | none =>
      simp only [ha] at h
      cases h1 : takeDigits 1 s with
      | none => simp [h1] at h
      | some pr1 =>
        obtain ⟨week1, rest1⟩ := pr1
        simp only [h1] at h
        exact key 1 (Or.inl rfl) week1 rest1 h1 h
  | none =>
    simp only [h2] at h
    cases h1 : takeDigits 1 s with
    | none => simp [h1] at h
    | some pr1 =>
      obtain ⟨week1, rest1⟩ := pr1
      simp only [h1] at h
      exact key 1 (Or.inl rfl) week1 rest1 h1 h

theorem matchAt_some (s w y : Str) (h : matchAt s = some (w, y)) :
    ∃ mid rest, IsWeekName w y mid ∧ s = mid ++ rest := by
  unfold matchAt at h
  cases h1 : dropLit litKw s with
  | none => simp [h1] at h
  | some s1 =>
    simp only [h1] at h
    obtain ⟨lw, dw, ly, dy, rest, e⟩ := matchWeek_some s1 w y h
    refine ⟨litKw ++ w ++ litSep ++ y ++ litHtml, rest, ⟨lw, dw, ly, dy, rfl⟩, ?_⟩
    rw [dropLit_some litKw s s1 h1, e]
    simp

theorem kwMatch_some : ∀ (s w y : Str), kwMatch s = some (w, y) →
    ∃ before mid rest, IsWeekName w y mid ∧ s = before ++ mid ++ rest := by
  intro s
  induction s with
  | nil =>
    intro w y h
    simp only [kwMatch] at h
    obtain ⟨mid, rest, hm, e⟩ := matchAt_some [] w y h
    exact ⟨[], mid, rest, hm, by simpa using e⟩
  | cons c cs ih =>
    intro w y h
    simp only [kwMatch] at h
    cases hm : matchAt (c :: cs) with
    | some m =>
      simp only [hm, Option.some.injEq] at h
      subst h
      obtain ⟨mid, rest, hmid, e⟩ := matchAt_some (c :: cs) w y hm
      exact ⟨[], mid, rest, hmid, by simpa using e⟩
    | none =>
      simp only [hm] at h
      obtain ⟨before, mid, rest, hmid, e⟩ := ih w y h
      exact ⟨c :: before, mid, rest, hmid, by simp [e]⟩

theorem kwMatch_isSome_of_contains (before mid rest w y : Str) (h : IsWeekName w y mid) :
    (kwMatch (before ++ mid ++ rest)).isSome = true := by
  obtain ⟨lw, dw, ly, dy, e⟩ := h
  induction before with
  | nil =>
    have := matchAt_exact w y rest lw dw ly dy
    rw [← e] at this
    simp [kwMatch_of_matchAt _ _ this]
  | cons b bs ih =>
    simp only [List.cons_append, kwMatch]
    cases hm : matchAt (b :: (bs ++ mid ++ rest)) with
    | some m => simp
    | none => simpa using ih

theorem containsWeekName_iff (s : Str) : ContainsWeekName s ↔ (kwMatch s).isSome = true := by
  constructor
  · rintro ⟨before, w, y, mid, rest, hm, e⟩
    rw [e]
    exact kwMatch_isSome_of_contains before mid rest w y hm
  · intro h
    cases hk : kwMatch s with
    | none => simp [hk] at h
    | some m =>
      obtain ⟨w, y⟩ := m
      obtain ⟨before, mid, rest, hm, e⟩ := kwMatch_some s w y hk
      exact ⟨before, w, y, mid, rest, hm, e⟩

theorem kwMatch_weekName (w y s : Str) (h : IsWeekName w y s) : kwMatch s = some (w, y) := by
  obtain ⟨lw, dw, ly, dy, e⟩ := h
  have := matchAt_exact w y [] lw dw ly dy
  rw [List.append_nil, ← e] at this
  exact kwMatch_of_matchAt s (w, y) this

theorem parseInt_weekName (w y s : Str) (h : IsWeekName w y s) :
    parseInt w = Value.num (decimalValue w) ∧ parseInt y = Value.num (decimalValue y) := by
  obtain ⟨lw, dw, ly, dy, _⟩ := h
  constructor
  · apply parseInt_digits w _ dw
    intro hnil
    rw [hnil] at lw
    simp at lw
  · apply parseInt_digits y _ dy
    intro hnil
    rw [hnil] at ly
    simp at ly

theorem parseIdentity_of_weekName (w y s : Str) (h : IsWeekName w y s) :
    parseIdentity s =
      PageIdentity.weekPage (Value.num (decimalValue w)) (Value.num (decimalValue y)) := by
  obtain ⟨pw, py⟩ := parseInt_weekName w y s h
  simp [parseIdentity, kwMatch_weekName w y s h, pw, py]

theorem parseIdentity_other_of_not_contains (s : Str) (hc : ¬ ContainsWeekName s)
    (hne : s ≠ []) (hni : s ≠ indexHtml) : parseIdentity s = PageIdentity.otherPage := by
  rw [containsWeekName_iff] at hc
  cases hk : kwMatch s with
  | some m => simp [hk] at hc
  | none => simp [parseIdentity, hk, hne, hni]

/-! ## Probing -/

theorem pageExists_eq (net : Oracle) (url : Str) (s : Browser) :
    pageExists net url s =
      (Except.ok (probeSucceeds net s.requests url),
        { s with requests := s.requests ++ [url] }) := by
  unfold pageExists fetchHead probeSucceeds
  cases h : net s.requests url with
  | rejected => simp
  | fulfilled response =>
    obtain ⟨ok⟩ := response
    cases ok <;> simp

theorem find?_range'_some (p : Nat → Bool) (n : Nat) : ∀ (a k : Nat),
    (List.range' a n).find? p = some k ↔
      (a ≤ k ∧ k < a + n ∧ p k = true ∧ ∀ j, a ≤ j → j < k → p j = false) := by
  induction n with
  | zero => intro a k; simp; intro h1 h2; omega
  | succ n ih =>
    intro a k
    rw [List.range'_succ, List.find?_cons]
    cases hpa : p a with
    | true =>
      simp only [Option.some.injEq]
      constructor
      · intro h
        subst h
        exact ⟨le_refl _, by omega, hpa, fun j h1 h2 => by omega⟩
      · rintro ⟨h1, _, _, h4⟩
        by_contra hne
        have := h4 a (le_refl _) (by omega)
        rw [hpa] at this
        exact Bool.noConfusion this
    | false =>
      simp only []
      rw [ih (a + 1) k]
      constructor
      · rintro ⟨h1, h2, h3, h4⟩
        refine ⟨by omega, by omega, h3, ?_⟩
        intro j hj1 hj2
        by_cases hja : j = a
        · rw [hja]; exact hpa
        · exact h4 j (by omega) hj2
      · rintro ⟨h1, h2, h3, h4⟩
        have hne : k ≠ a := by
          intro hk
          rw [hk, hpa] at h3
          exact Bool.noConfusion h3
        exact ⟨by omega, by omega, h3, fun j hj1 hj2 => h4 j (by omega) hj2⟩

theorem find?_reverse_range'_some (p : Nat → Bool) (a : Nat) : ∀ (n k : Nat),
    (List.range' a n).reverse.find? p = some k ↔
      (a ≤ k ∧ k < a + n ∧ p k = true ∧ ∀ j, k < j → j < a + n → p j = false) := by
  intro n
  induction n with
  | zero => intro k; simp; intro h1 h2; omega
  | succ n ih =>
    intro k
    rw [List.range'_concat, List.reverse_append, List.reverse_singleton, List.singleton_append,
      List.find?_cons, Nat.one_mul]
    cases hpa : p (a + n) with
    | true =>
      simp only [Option.some.injEq]
      constructor
      · intro h
        subst h
        exact ⟨by omega, by omega, hpa, fun j h1 h2 => by omega⟩
      · rintro ⟨_, h2, _, h4⟩
        by_contra hne
        have := h4 (a + n) (by omega) (by omega)
        rw [hpa] at this
        exact Bool.noConfusion this
    | false =>
      simp only []
      rw [ih k]
      constructor
      · rintro ⟨h1, h2, h3, h4⟩
        refine ⟨h1, by omega, h3, ?_⟩
        intro j hj1 hj2
        by_cases hja : j = a + n
        · rw [hja]; exact hpa
        · exact h4 j hj1 (by omega)
      · rintro ⟨h1, h2, h3, h4⟩
        have hne : k ≠ a + n := by
          intro hk
          rw [hk, hpa] at h3
          exact Bool.noConfusion h3
        exact ⟨h1, by omega, h3, fun j hj1 hj2 => h4 j hj1 (by omega)⟩

theorem weekURLs_concat (year : Int) (kw n : Nat) :
    weekURLs year kw (n + 1) =
      weekURLs year kw n ++ [kwURL (Value.num ((kw + n : Nat) : Int)) (Value.num year)] := by
  simp [weekURLs, List.range'_concat]

theorem Browser.requests_self (s : Browser) (l : List Str) (h : s.requests = l) :
    { s with requests := l } = s := by
  cases s
  simp at h
  simp [h]

/-- The loop of `findFirstAndLastWeek`, entered at week `kw` of a scan that started with log
`base`, always runs to week 53 and returns: `first` keeps a truthy value and otherwise takes
the first week from `kw` on whose probe succeeds, `last` takes the last such week. -/
theorem findLoop_spec (net : Oracle) (year : Int) (base : List Str) :
    ∀ (n kw : Nat) (first last : Value) (s : Browser), kw + n = 54 → 1 ≤ kw →
      s.requests = base ++ weekURLs year 1 (kw - 1) →
      findLoop net year kw first last s =
        (Except.ok
          { first := if first.truthy then first else
              match (List.range' kw n).find? (weekExists net year base) with
              | some k => Value.num k
              | none => first,
            last :=
              match (List.range' kw n).reverse.find? (weekExists net year base) with
              | some k => Value.num k
              | none => last },
          { s with requests := base ++ weekURLs year 1 53 }) := by
  intro n
  induction n with
  | zero =>
    intro kw first last s hk h1 hreq
    have hkw : kw = 54 := by omega
    subst hkw
    rw [findLoop]
    simp only [show ¬ (54 ≤ 53) by omega, if_false, List.range'_zero, List.reverse_nil,
      List.find?_nil, ite_self]
    rw [Browser.requests_self s _ hreq]
  | succ n ih =>
    intro kw first last s hk h1 hreq
    have hle : kw ≤ 53 := by omega
    have hurl : weekURLs year 1 kw =
        weekURLs year 1 (kw - 1) ++ [kwURL (Value.num (kw : Int)) (Value.num year)] := by
      have e : kw = (kw - 1) + 1 := by omega
      conv_lhs => rw [e]
      rw [weekURLs_concat]
      have e2 : 1 + (kw - 1) = kw := by omega
      rw [e2]
    have hex : probeSucceeds net s.requests (kwURL (Value.num (kw : Int)) (Value.num year)) =
        weekExists net year base kw := by
      rw [hreq]; rfl
    have htr : (Value.num (kw : Int)).truthy = true := by
      simp [Value.truthy]; omega
    rw [findLoop]
    simp only [hle, if_true, pageExists_eq, hex]
    rw [List.range'_succ, List.find?_cons, List.reverse_cons, List.find?_append]
    cases hb : weekExists net year base kw with
    | true =>
      simp only []
      rw [ih (kw + 1) _ _ _ (by omega) (by omega) (by simp [hreq, hurl])]
      apply Prod.ext
      · simp only [Except.ok.injEq, WeekRange.mk.injEq]
        constructor
        · by_cases hf : first.truthy = true
          · simp [hf]
          · simp [hf, htr]
        · simp only [List.find?_cons, hb, List.find?_nil]
          cases (List.range' (kw + 1) n).reverse.find? (weekExists net year base) <;> simp
      · rfl
    | false =>
      simp only []
      rw [ih (kw + 1) _ _ _ (by omega) (by omega) (by simp [hreq, hurl])]
      apply Prod.ext
      · simp only [Except.ok.injEq, WeekRange.mk.injEq]
        refine ⟨trivial, ?_⟩
        · simp only [List.find?_cons, hb, List.find?_nil]
          cases (List.range' (kw + 1) n).reverse.find? (weekExists net year base) <;> simp
      · rfl

theorem findFirstAndLastWeek_eq (net : Oracle) (year : Int) (s : Browser) :
    findFirstAndLastWeek net year s =
      (Except.ok { first := scanFirst (weekExists net year s.requests),
                   last := scanLast (weekExists net year s.requests) },
        { s with requests := s.requests ++ weekURLs year 1 53 }) := by
  unfold findFirstAndLastWeek
  rw [findLoop_spec net year s.requests 53 1 Value.null Value.null s (by omega) (by omega)
    (by simp [weekURLs])]
  rfl

theorem scanFirst_eq_num (p : Nat → Bool) (k : Nat) :
    scanFirst p = Value.num k ↔
      (1 ≤ k ∧ k ≤ 53 ∧ p k = true ∧ ∀ j, 1 ≤ j → j < k → p j = false) := by
  unfold scanFirst
  cases h : (List.range' 1 53).find? p with
  | none =>
    constructor
    · intro hv
      exact Value.noConfusion hv
    · rintro ⟨h1, h2, h3, _⟩
      rw [List.find?_eq_none] at h
      exact absurd h3 (h k (List.mem_range'_1.mpr ⟨h1, by omega⟩))
  | some m =>
    simp only [Value.num.injEq, Nat.cast_inj]
    constructor
    · intro hm
      subst hm
      obtain ⟨a, b, c, d⟩ := (find?_range'_some p 53 1 m).mp h
      exact ⟨a, by omega, c, d⟩
    · rintro ⟨a, b, c, d⟩
      have := (find?_range'_some p 53 1 k).mpr ⟨a, by omega, c, d⟩
      rw [h] at this
      exact Option.some.inj this

theorem scanLast_eq_num (p : Nat → Bool) (k : Nat) :
    scanLast p = Value.num k ↔
      (1 ≤ k ∧ k ≤ 53 ∧ p k = true ∧ ∀ j, k < j → j ≤ 53 → p j = false) := by
  unfold scanLast
  cases h : (List.range' 1 53).reverse.find? p with
  | none =>
    constructor
    · intro hv
      exact Value.noConfusion hv
    · rintro ⟨h1, h2, h3, _⟩
      rw [List.find?_eq_none] at h
      exact absurd h3 (h k (List.mem_reverse.mpr (List.mem_range'_1.mpr ⟨h1, by omega⟩)))
  | some m =>
    simp only [Value.num.injEq, Nat.cast_inj]
    constructor
    · intro hm
      subst hm
      obtain ⟨a, b, c, d⟩ := (find?_reverse_range'_some p 1 53 m).mp h
      exact ⟨a, by omega, c, fun j h1 h2 => d j h1 (by omega)⟩
    · rintro ⟨a, b, c, d⟩
      have := (find?_reverse_range'_some p 1 53 k).mpr
        ⟨a, by omega, c, fun j h1 h2 => d j h1 (by omega)⟩
      rw [h] at this
      exact Option.some.inj this

theorem scan_null (p : Nat → Bool) (h : ∀ k, 1 ≤ k → k ≤ 53 → p k = false) :
    scanFirst p = Value.null ∧ scanLast p = Value.null := by
  have h1 : (List.range' 1 53).find? p = none := by
    rw [List.find?_eq_none]
    intro x hx
    obtain ⟨a, b⟩ := List.mem_range'_1.mp hx
    simp [h x a (by omega)]
  have h2 : (List.range' 1 53).reverse.find? p = none := by
    rw [List.find?_eq_none]
    intro x hx
    obtain ⟨a, b⟩ := List.mem_range'_1.mp (List.mem_reverse.mp hx)
    simp [h x a (by omega)]
  simp [scanFirst, scanLast, h1, h2]

theorem scan_found (p : Nat → Bool) (h : ∃ k, 1 ≤ k ∧ k ≤ 53 ∧ p k = true) :
    (∃ f : Nat, 1 ≤ f ∧ scanFirst p = Value.num f) ∧
      (∃ l : Nat, 1 ≤ l ∧ scanLast p = Value.num l) := by
  obtain ⟨k, k1, k2, hk⟩ := h
  constructor
  · cases hf : (List.range' 1 53).find? p with
    | none =>
      rw [List.find?_eq_none] at hf
      exact absurd hk (hf k (List.mem_range'_1.mpr ⟨k1, by omega⟩))
    | some m =>
      obtain ⟨a, _⟩ := (find?_range'_some p 53 1 m).mp hf
      exact ⟨m, a, by simp [scanFirst, hf]⟩
  · cases hf : (List.range' 1 53).reverse.find? p with
    | none =>
      rw [List.find?_eq_none] at hf
      exact absurd hk (hf k (List.mem_reverse.mpr (List.mem_range'_1.mpr ⟨k1, by omega⟩)))
    | some m =>
      obtain ⟨a, _⟩ := (find?_reverse_range'_some p 1 53 m).mp hf
      exact ⟨m, a, by simp [scanLast, hf]⟩

theorem truthy_num_pos (k : Nat) (h : 1 ≤ k) : (Value.num (k : Int)).truthy = true := by
  simp [Value.truthy]; omega

theorem numberToString_natCast (k : Nat) : numberToString (k : Int) = natToString k := rfl

theorem kwURL_week_injective (year : Value) (a b : Nat)
    (h : kwURL (Value.num (a : Int)) year = kwURL (Value.num (b : Int)) year) : a = b := by
  unfold kwURL at h
  simp only [Value.toStr, numberToString_natCast, List.append_assoc,
    List.append_cancel_left_eq] at h
  exact natToString_injective a b (List.append_cancel_right h)

theorem weekURLs_nodup (year : Int) (kw n : Nat) : (weekURLs year kw n).Nodup := by
  unfold weekURLs
  apply List.Nodup.map
  · intro a b h
    exact kwURL_week_injective (Value.num year) a b h
  · exact List.nodup_range' kw n

/-! ## Set-up and clicks -/

theorem kwMatch_of_weekPage (file : Str) (w y : Value)
    (h : parseIdentity file = PageIdentity.weekPage w y) :
    ∃ g1 g2, kwMatch file = some (g1, g2) ∧ parseInt g1 = w ∧ parseInt g2 = y := by
  unfold parseIdentity at h
  cases hk : kwMatch file with
  | none =>
    rw [hk] at h
    simp only [] at h
    split at h <;> exact PageIdentity.noConfusion h
  | some m =>
    obtain ⟨g1, g2⟩ := m
    rw [hk] at h
    simp only [PageIdentity.weekPage.injEq] at h
    exact ⟨g1, g2, rfl, h.1, h.2⟩

theorem kwMatch_of_indexPage (file : Str) (h : parseIdentity file = PageIdentity.indexPage) :
    kwMatch file = none ∧ (file = indexHtml ∨ file = []) := by
  unfold parseIdentity at h
  cases hk : kwMatch file with
  | none =>
    rw [hk] at h
    simp only [] at h
    refine ⟨rfl, ?_⟩
    by_contra hne
    rw [if_neg hne] at h
    exact PageIdentity.noConfusion h
  | some m =>
    rw [hk] at h
    exact PageIdentity.noConfusion h

theorem kwMatch_of_otherPage (file : Str) (h : parseIdentity file = PageIdentity.otherPage) :
    kwMatch file = none ∧ ¬ (file = indexHtml ∨ file = []) := by
  unfold parseIdentity at h
  cases hk : kwMatch file with
  | none =>
    rw [hk] at h
    simp only [] at h
    refine ⟨rfl, ?_⟩
    intro hne
    rw [if_pos hne] at h
    exact PageIdentity.noConfusion h
  | some m =>
    rw [hk] at h
    exact PageIdentity.noConfusion h

theorem setup_week (net : Oracle) (file g1 g2 : Str) (s : Browser)
    (hk : kwMatch file = some (g1, g2)) :
    setup net file s =
      ({ prev := some (weekHandler net (kwURL ((parseInt g1).addInt (-1)) (parseInt g2))),
         next := some (weekHandler net (kwURL ((parseInt g1).addInt 1) (parseInt g2))),
         home := some homeHandler }, s) := by
  unfold setup
  rw [hk]

theorem setup_index (net : Oracle) (file : Str) (s : Browser)
    (hk : kwMatch file = none) (hi : file = indexHtml ∨ file = []) :
    setup net file s =
      ({ prev := some (indexHandler (scanLast (weekExists net 2025 s.requests)) 2025),
         next := some (indexHandler (scanFirst (weekExists net 2025 s.requests)) 2025),
         home := some homeHandler },
        { s with requests := s.requests ++ weekURLs 2025 1 53 }) := by
  unfold setup
  rw [hk]
  simp only [if_pos hi, findFirstAndLastWeek_eq]

theorem setup_other (net : Oracle) (file : Str) (s : Browser)
    (hk : kwMatch file = none) (hi : ¬ (file = indexHtml ∨ file = [])) :
    setup net file s =
      ({ prev := some otherHandler, next := some otherHandler, home := some homeHandler },
        s) := by
  unfold setup
  rw [hk]
  simp only [if_neg hi]

theorem setup_home (net : Oracle) (file : Str) (s : Browser) :
    (setup net file s).1.home = some homeHandler := by
  cases hk : kwMatch file with
  | some m =>
    obtain ⟨g1, g2⟩ := m
    rw [setup_week net file g1 g2 s hk]
  | none =>
    by_cases hi : file = indexHtml ∨ file = []
    · rw [setup_index net file s hk hi]
    · rw [setup_other net file s hk hi]

theorem click_weekHandler (net : Oracle) (b : Bindings) (button : Button) (url : Str)
    (s : Browser) (hb : b.listener button = some (weekHandler net url)) :
    click b button s =
      { requests := s.requests ++ [url],
        navigations := s.navigations ++ [if probeSucceeds net s.requests url = true then url
          else indexHtml],
        defaultPrevented := true } := by
  unfold click
  rw [hb]
  simp only [weekHandler, pageExists_eq, preventDefault]
  cases probeSucceeds net s.requests url <;> simp [setHref]

theorem click_weekHandler_requests (net : Oracle) (b : Bindings) (button : Button)
    (url : Str) (s : Browser) (hb : b.listener button = some (weekHandler net url)) :
    (click b button s).requests = s.requests ++ [url] := by
  rw [click_weekHandler net b button url s hb]

theorem click_homeHandler (b : Bindings) (s : Browser) (hb : b.home = some homeHandler) :
    click b Button.home s =
      { requests := s.requests, navigations := s.navigations ++ [indexHtml],
        defaultPrevented := true } := by
  unfold click
  simp [Bindings.listener, hb, homeHandler, setHref, preventDefault]

theorem click_otherHandler (b : Bindings) (button : Button) (s : Browser)
    (hb : b.listener button = some otherHandler) :
    click b button s =
      { requests := s.requests, navigations := s.navigations ++ [indexHtml],
        defaultPrevented := false } := by
  unfold click
  simp [hb, otherHandler, setHref]

theorem click_indexHandler (b : Bindings) (button : Button) (week : Value) (year : Int)
    (s : Browser) (hb : b.listener button = some (indexHandler week year)) :
    click b button s =
      { requests := s.requests,
        navigations := if week.truthy = true then
          s.navigations ++ [kwURL week (Value.num year)] else s.navigations,
        defaultPrevented := false } := by
  unfold click
  rw [hb]
  simp only [indexHandler]
  cases week.truthy <;> simp [setHref]

theorem clicks_home_replicate (b : Bindings) (hb : b.home = some homeHandler) (n : Nat) :
    ∀ s : Browser,
      (clicks b (List.replicate n Button.home) s).navigations =
          s.navigations ++ List.replicate n indexHtml ∧
        (clicks b (List.replicate n Button.home) s).requests = s.requests := by
  induction n with
  | zero => intro s; simp [clicks]
  | succ n ih =>
    intro s
    have h := ih (click b Button.home s)
    rw [click_homeHandler b s hb] at h
    simp only [clicks, List.replicate_succ, List.foldl_cons] at h ⊢
    rw [click_homeHandler b s hb]
    refine ⟨?_, h.2⟩
    rw [h.1]
    simp [List.replicate_succ]

theorem clicks_other_requests (b : Bindings)
    (hb : ∀ button, b.listener button = some otherHandler ∨
      (button = Button.home ∧ b.home = some homeHandler)) (buttons : List Button) :
    ∀ s : Browser, (clicks b buttons s).requests = s.requests := by
  induction buttons with
  | nil => intro s; rfl
  | cons button rest ih =>
    intro s
    have h := ih (click b button s)
    simp only [clicks, List.foldl_cons] at h ⊢
    rw [h]
    rcases hb button with h1 | ⟨h1, h2⟩
    · rw [click_otherHandler b button s h1]
    · subst h1
      rw [click_homeHandler b s h2]

theorem kwURL_isWeekName (a y : Nat) (ha : a < 100) (hy1 : 1000 ≤ y) (hy2 : y < 10000) :
    IsWeekName (natToString a) (natToString y)
      (kwURL (Value.num (a : Int)) (Value.num (y : Int))) :=
  ⟨natToString_length_small a ha, allDigits_natToString a, natToString_length_four y hy1 hy2,
    allDigits_natToString y, rfl⟩

theorem parseIdentity_kwURL (a y : Nat) (ha : a < 100) (hy1 : 1000 ≤ y) (hy2 : y < 10000) :
    parseIdentity (kwURL (Value.num (a : Int)) (Value.num (y : Int))) =
      PageIdentity.weekPage (Value.num (a : Int)) (Value.num (y : Int)) := by
  rw [parseIdentity_of_weekName _ _ _ (kwURL_isWeekName a y ha hy1 hy2),
    decimalValue_natToString, decimalValue_natToString]

/-! ## The claims -/

/-- C1: on a week page with week `w` and year `y`, the set-up issues no probe; a click on
Previous issues exactly one probe, for the URL of week `w - 1` of year `y`, and navigates to
that URL when the probe reports existence and to index.html otherwise; a click on Next does
the same with week `w + 1`. -/
theorem week_page_click (net : Oracle) (file : Str) (w y : Int) (s s' : Browser)
    (h : parseIdentity file = PageIdentity.weekPage (Value.num w) (Value.num y)) :
    (setup net file s).2 = s ∧
      click (setup net file s).1 Button.previous s' =
        { requests := s'.requests ++ [kwURL (Value.num (w - 1)) (Value.num y)],
          navigations := s'.navigations ++
            [if probeSucceeds net s'.requests (kwURL (Value.num (w - 1)) (Value.num y)) = true
              then kwURL (Value.num (w - 1)) (Value.num y) else indexHtml],
          defaultPrevented := true } ∧
      click (setup net file s).1 Button.next s' =
        { requests := s'.requests ++ [kwURL (Value.num (w + 1)) (Value.num y)],
          navigations := s'.navigations ++
            [if probeSucceeds net s'.requests (kwURL (Value.num (w + 1)) (Value.num y)) = true
              then kwURL (Value.num (w + 1)) (Value.num y) else indexHtml],
          defaultPrevented := true } := by
  obtain ⟨g1, g2, hk, hw, hy⟩ := kwMatch_of_weekPage file _ _ h
  rw [setup_week net file g1 g2 s hk, hw, hy]
  refine ⟨rfl, ?_, ?_⟩
  · exact click_weekHandler net _ Button.previous _ s' rfl
  · exact click_weekHandler net _ Button.next _ s' rfl

/-- C1, the scenario of the specification: on kw_46_2025.html, with kw_47_2025.html present and
kw_45_2025.html missing, Next navigates to kw_47_2025.html and Previous to index.html, each
after exactly one probe. -/
theorem week_page_click_witness :
    parseIdentity "kw_46_2025.html".toList =
        PageIdentity.weekPage (Value.num 46) (Value.num 2025) ∧
      click (setup (oracleOf ["kw_47_2025.html".toList]) "kw_46_2025.html".toList
          Browser.fresh).1 Button.next Browser.fresh =
        { requests := ["kw_47_2025.html".toList], navigations := ["kw_47_2025.html".toList],
          defaultPrevented := true } ∧
      click (setup (oracleOf ["kw_47_2025.html".toList]) "kw_46_2025.html".toList
          Browser.fresh).1 Button.previous Browser.fresh =
        { requests := ["kw_45_2025.html".toList], navigations := ["index.html".toList],
          defaultPrevented := true } := by
  have h := week_page_click (oracleOf ["kw_47_2025.html".toList]) "kw_46_2025.html".toList
    46 2025 Browser.fresh Browser.fresh (by decide)
  refine ⟨by decide, ?_, ?_⟩
  · rw [h.2.2]; decide
  · rw [h.2.1]; decide

/-- C2: a file name made of kw_, a group `w` of 1 or 2 decimal digits, _, a group `y` of
exactly 4 decimal digits and .html is classified as a week page whose week is the decimal
value of `w` and whose year is the decimal value of `y`. -/
theorem parseIdentity_weekName (w y s : Str) (h : IsWeekName w y s) :
    parseIdentity s =
      PageIdentity.weekPage (Value.num (decimalValue w)) (Value.num (decimalValue y)) :=
  parseIdentity_of_weekName w y s h

/-- C2 at kw_05_2025.html: a leading zero is accepted, the week is 5 and the year 2025. -/
theorem parseIdentity_weekName_witness :
    IsWeekName "05".toList "2025".toList "kw_05_2025.html".toList ∧
      parseIdentity "kw_05_2025.html".toList =
        PageIdentity.weekPage (Value.num 5) (Value.num 2025) :=
  ⟨by decide,
    parseIdentity_weekName "05".toList "2025".toList "kw_05_2025.html".toList (by decide)⟩

/-- C3 as stated fails: old_kw_46_2025.html, the file name of the path
/berichte/old_kw_46_2025.html, is not of the exact week-name form, is not empty and is not
index.html, yet it is classified as the week page of week 46 of 2025, not as an other page. -/
theorem parseIdentity_inexact_name :
    currentFile "/berichte/old_kw_46_2025.html".toList = "old_kw_46_2025.html".toList ∧
      (¬ ∃ w y, IsWeekName w y "old_kw_46_2025.html".toList) ∧
      "old_kw_46_2025.html".toList ≠ [] ∧ "old_kw_46_2025.html".toList ≠ indexHtml ∧
      parseIdentity "old_kw_46_2025.html".toList =
        PageIdentity.weekPage (Value.num 46) (Value.num 2025) ∧
      parseIdentity "old_kw_46_2025.html".toList ≠ PageIdentity.otherPage := by
  refine ⟨by decide, ?_, by decide, by decide, by decide, by decide⟩
  rintro ⟨w, y, _, _, _, _, e⟩
  have hhead := congrArg List.head? e
  simp [litKw] at hhead

/-- C3, amended: a file name that nowhere holds a stretch of the form kw_, 1 or 2 decimal
digits, _, 4 decimal digits, .html, and that is neither empty nor index.html, is classified as
an other page. -/
theorem parseIdentity_other (s : Str) (hc : ¬ ContainsWeekName s) (hne : s ≠ [])
    (hni : s ≠ indexHtml) : parseIdentity s = PageIdentity.otherPage :=
  parseIdentity_other_of_not_contains s hc hne hni

/-- C3, amended, at about.html and at kw_123_2025.html (three week digits). -/
theorem parseIdentity_other_witness :
    (¬ ContainsWeekName "about.html".toList ∧ "about.html".toList ≠ [] ∧
        "about.html".toList ≠ indexHtml ∧
        parseIdentity "about.html".toList = PageIdentity.otherPage) ∧
      parseIdentity "kw_123_2025.html".toList = PageIdentity.otherPage := by
  have hc : ¬ ContainsWeekName "about.html".toList := by
    rw [containsWeekName_iff]; decide
  have hc2 : ¬ ContainsWeekName "kw_123_2025.html".toList := by
    rw [containsWeekName_iff]; decide
  exact ⟨⟨hc, by decide, by decide,
    parseIdentity_other "about.html".toList hc (by decide) (by decide)⟩,
    parseIdentity_other "kw_123_2025.html".toList hc2 (by decide) (by decide)⟩


/-- C4: for every year that is a safe integer (so that the template literal writes it in
plain decimal), every probe oracle and every starting state, `findFirstAndLastWeek` returns a
range. Its `first` is the smallest week in 1..53 whose probe succeeds and its `last` the
largest such week; when the probe succeeds for no week in 1..53, both are `null`. -/
theorem findFirstAndLastWeek_range (net : Oracle) (year : Int) (s : Browser)
    (_hyear : IsSafeInteger year) :
    ∃ range : WeekRange, (findFirstAndLastWeek net year s).1 = Except.ok range ∧
      (∀ k : Nat, range.first = Value.num (k : Int) ↔
        (1 ≤ k ∧ k ≤ 53 ∧ weekExists net year s.requests k = true ∧
          ∀ j, 1 ≤ j → j < k → weekExists net year s.requests j = false)) ∧
      (∀ k : Nat, range.last = Value.num (k : Int) ↔
        (1 ≤ k ∧ k ≤ 53 ∧ weekExists net year s.requests k = true ∧
          ∀ j, k < j → j ≤ 53 → weekExists net year s.requests j = false)) ∧
      ((∀ k, 1 ≤ k → k ≤ 53 → weekExists net year s.requests k = false) →
        range.first = Value.null ∧ range.last = Value.null) := by
  refine ⟨_, by rw [findFirstAndLastWeek_eq], ?_, ?_, ?_⟩
  · intro k
    exact scanFirst_eq_num _ k
  · intro k
    exact scanLast_eq_num _ k
  · intro h
    exact scan_null _ h

/-- C4, the scenario of the specification: with exactly the pages of weeks 3, 5 and 9 of 2025
present, the range found has first = 3 and last = 9. -/
theorem findFirstAndLastWeek_range_witness :
    IsSafeInteger 2025 ∧
    (findFirstAndLastWeek
        (oracleOf ["kw_3_2025.html".toList, "kw_5_2025.html".toList, "kw_9_2025.html".toList])
        2025 Browser.fresh).1 =
      Except.ok { first := Value.num 3, last := Value.num 9 } := by
  refine ⟨by decide, ?_⟩
  obtain ⟨range, hr, hf, hl, _⟩ := findFirstAndLastWeek_range
    (oracleOf ["kw_3_2025.html".toList, "kw_5_2025.html".toList, "kw_9_2025.html".toList])
    2025 Browser.fresh (by decide)
  have h3 := (hf 3).mpr ⟨by omega, by omega, by decide, by
    intro j h1 h2
    interval_cases j <;> decide⟩
  have h9 := (hl 9).mpr ⟨by omega, by omega, by decide, by
    intro j h1 h2
    interval_cases j <;> decide⟩
  rw [hr]
  obtain ⟨f, l⟩ := range
  simp only at h3 h9
  rw [h3, h9]
  rfl

/-- C5: on the index page, once the discovery for the year 2025 has completed with a range,
a click on Previous or on Next issues no probe; when at least one week was found, Previous
navigates to the page of `last` and Next to the page of `first`; when no week was found,
neither click navigates. -/
theorem index_page_click (net : Oracle) (file : Str) (s s' : Browser)
    (h : parseIdentity file = PageIdentity.indexPage) :
    (setup net file s).2 = (findFirstAndLastWeek net 2025 s).2 ∧
    ∃ range : WeekRange, (findFirstAndLastWeek net 2025 s).1 = Except.ok range ∧
      (click (setup net file s).1 Button.previous s').requests = s'.requests ∧
      (click (setup net file s).1 Button.next s').requests = s'.requests ∧
      ((∃ k, 1 ≤ k ∧ k ≤ 53 ∧ weekExists net 2025 s.requests k = true) →
        (click (setup net file s).1 Button.previous s').navigations =
            s'.navigations ++ [kwURL range.last (Value.num 2025)] ∧
          (click (setup net file s).1 Button.next s').navigations =
            s'.navigations ++ [kwURL range.first (Value.num 2025)]) ∧
      ((∀ k, 1 ≤ k → k ≤ 53 → weekExists net 2025 s.requests k = false) →
        (click (setup net file s).1 Button.previous s').navigations = s'.navigations ∧
          (click (setup net file s).1 Button.next s').navigations = s'.navigations) := by
  obtain ⟨hk, hi⟩ := kwMatch_of_indexPage file h
  rw [setup_index net file s hk hi, findFirstAndLastWeek_eq]
  have hp := click_indexHandler
    { prev := some (indexHandler (scanLast (weekExists net 2025 s.requests)) 2025),
      next := some (indexHandler (scanFirst (weekExists net 2025 s.requests)) 2025),
      home := some homeHandler }
    Button.previous (scanLast (weekExists net 2025 s.requests)) 2025 s' rfl
  have hn := click_indexHandler
    { prev := some (indexHandler (scanLast (weekExists net 2025 s.requests)) 2025),
      next := some (indexHandler (scanFirst (weekExists net 2025 s.requests)) 2025),
      home := some homeHandler }
    Button.next (scanFirst (weekExists net 2025 s.requests)) 2025 s' rfl
  refine ⟨rfl, _, rfl, ?_, ?_, ?_, ?_⟩
  · rw [hp]
  · rw [hn]
  · intro hex
    obtain ⟨⟨f, f1, hf⟩, ⟨l, l1, hl⟩⟩ := scan_found _ hex
    rw [hp, hn]
    simp only [hf, hl, truthy_num_pos f f1, truthy_num_pos l l1, if_true, and_self]
  · intro hno
    obtain ⟨hf, hl⟩ := scan_null _ hno
    rw [hp, hn]
    simp [hf, hl, Value.truthy]

/-- C6: on an other page, the set-up issues no probe, a click on Previous, Next or Home
navigates to index.html, and the set-up followed by any sequence of clicks leaves the log of
probes as it was. -/
theorem other_page_click (net : Oracle) (file : Str) (s : Browser)
    (h : parseIdentity file = PageIdentity.otherPage) :
    (setup net file s).2 = s ∧
      (∀ (button : Button) (s' : Browser),
        (click (setup net file s).1 button s').navigations = s'.navigations ++ [indexHtml] ∧
          (click (setup net file s).1 button s').requests = s'.requests) ∧
      (∀ buttons : List Button,
        (clicks (setup net file s).1 buttons (setup net file s).2).requests = s.requests) := by
  obtain ⟨hk, hi⟩ := kwMatch_of_otherPage file h
  rw [setup_other net file s hk hi]
  refine ⟨rfl, ?_, ?_⟩
  · intro button s'
    have hp : (Bindings.mk (some otherHandler) (some otherHandler)
        (some homeHandler)).listener Button.previous = some otherHandler := rfl
    have hn : (Bindings.mk (some otherHandler) (some otherHandler)
        (some homeHandler)).listener Button.next = some otherHandler := rfl
    cases button
    · rw [click_otherHandler _ Button.previous s' hp]; exact ⟨rfl, rfl⟩
    · rw [click_otherHandler _ Button.next s' hn]; exact ⟨rfl, rfl⟩
    · rw [click_homeHandler _ s' rfl]; exact ⟨rfl, rfl⟩
  · intro buttons
    apply clicks_other_requests
    intro button
    cases button
    · exact Or.inl rfl
    · exact Or.inl rfl
    · exact Or.inr ⟨rfl, rfl⟩

/-- C7: for every file name, probe oracle and sequence of earlier clicks, a click on Home
navigates to index.html and issues no probe; any number of Home clicks in a row navigate to
index.html each time and issue no probe. -/
theorem home_click (net : Oracle) (file : Str) (s : Browser) (earlier : List Button) :
    (click (setup net file s).1 Button.home
        (clicks (setup net file s).1 earlier (setup net file s).2)).navigations =
      (clicks (setup net file s).1 earlier (setup net file s).2).navigations ++ [indexHtml] ∧
    (click (setup net file s).1 Button.home
        (clicks (setup net file s).1 earlier (setup net file s).2)).requests =
      (clicks (setup net file s).1 earlier (setup net file s).2).requests ∧
    ∀ n : Nat,
      (clicks (setup net file s).1 (List.replicate n Button.home)
          (clicks (setup net file s).1 earlier (setup net file s).2)).navigations =
        (clicks (setup net file s).1 earlier (setup net file s).2).navigations ++
          List.replicate n indexHtml ∧
      (clicks (setup net file s).1 (List.replicate n Button.home)
          (clicks (setup net file s).1 earlier (setup net file s).2)).requests =
        (clicks (setup net file s).1 earlier (setup net file s).2).requests := by
  have hb := setup_home net file s
  refine ⟨?_, ?_, ?_⟩
  · rw [click_homeHandler _ _ hb]
  · rw [click_homeHandler _ _ hb]
  · intro n
    exact clicks_home_replicate _ hb n _

/-- C8: `pageExists` always completes normally, never with an exception: its value is the
`ok` flag of the response when the request completes and `false` when the request fails,
so it is `true` exactly when the request completes with ok = true; the request is logged. -/
theorem pageExists_never_throws (net : Oracle) (url : Str) (s : Browser) :
    (pageExists net url s).1 =
        Except.ok (match net s.requests url with
          | FetchOutcome.rejected => false
          | FetchOutcome.fulfilled response => response.ok) ∧
      ((pageExists net url s).1 = Except.ok true ↔
        net s.requests url = FetchOutcome.fulfilled { ok := true }) ∧
      (pageExists net url s).2 = { s with requests := s.requests ++ [url] } := by
  unfold pageExists fetchHead
  cases h : net s.requests url with
  | rejected => simp
  | fulfilled response =>
    obtain ⟨ok⟩ := response
    cases ok <;> simp

/-- C9: for every year that is a safe integer (so that the template literal writes it in
plain decimal) and every probe oracle, `findFirstAndLastWeek` adds to the log exactly the
53 URLs of the weeks 1, 2, ..., 53 of that year, in ascending order and each once, whatever
the probes answer; it assigns no location. -/
theorem findFirstAndLastWeek_probes (net : Oracle) (year : Int) (s : Browser)
    (_hyear : IsSafeInteger year) :
    (findFirstAndLastWeek net year s).2.requests =
        s.requests ++
          (List.range' 1 53).map
            (fun (k : Nat) => kwURL (Value.num (k : Int)) (Value.num year)) ∧
      ((List.range' 1 53).map
        (fun (k : Nat) => kwURL (Value.num (k : Int)) (Value.num year))).length = 53 ∧
      ((List.range' 1 53).map
        (fun (k : Nat) => kwURL (Value.num (k : Int)) (Value.num year))).Nodup ∧
      (findFirstAndLastWeek net year s).2.navigations = s.navigations := by
  rw [findFirstAndLastWeek_eq]
  exact ⟨rfl, by simp, weekURLs_nodup year 1 53, rfl⟩

/-- C9 for the year 2025, once with no page present and once with every request rejected:
the 53 requests are the same, from kw_1_2025.html up to kw_53_2025.html. -/
theorem findFirstAndLastWeek_probes_witness :
    IsSafeInteger 2025 ∧
      (findFirstAndLastWeek (oracleOf []) 2025 Browser.fresh).2.requests =
        (List.range' 1 53).map
          (fun (k : Nat) => kwURL (Value.num (k : Int)) (Value.num 2025)) ∧
      (findFirstAndLastWeek (fun _ _ => FetchOutcome.rejected) 2025
          Browser.fresh).2.requests =
        (List.range' 1 53).map
          (fun (k : Nat) => kwURL (Value.num (k : Int)) (Value.num 2025)) ∧
      ((List.range' 1 53).map
          (fun (k : Nat) => kwURL (Value.num (k : Int)) (Value.num 2025))).take 2 =
        ["kw_1_2025.html".toList, "kw_2_2025.html".toList] ∧
      ((List.range' 1 53).map
          (fun (k : Nat) => kwURL (Value.num (k : Int)) (Value.num 2025))).getLast? =
        some "kw_53_2025.html".toList :=
  ⟨by decide,
    (findFirstAndLastWeek_probes (oracleOf []) 2025 Browser.fresh (by decide)).1,
    (findFirstAndLastWeek_probes (fun _ _ => FetchOutcome.rejected) 2025 Browser.fresh
      (by decide)).1,
    by decide, by decide⟩

/-- C10: on a week page with week `w` in 1..98 and year `y` in 1000..9999, the URL probed
by Next is itself classified as the week page of week `w + 1` of year `y`, and the URL probed
by Previous as the week page of week `w - 1` of year `y`. -/
theorem neighbour_urls_in_template (net : Oracle) (file : Str) (w y : Int) (s : Browser)
    (h : parseIdentity file = PageIdentity.weekPage (Value.num w) (Value.num y))
    (hw1 : 1 ≤ w) (hw2 : w ≤ 98) (hy1 : 1000 ≤ y) (hy2 : y ≤ 9999) :
    ∃ prevURL nextURL : Str,
      (∀ s' : Browser,
        (click (setup net file s).1 Button.previous s').requests = s'.requests ++ [prevURL]) ∧
      (∀ s' : Browser,
        (click (setup net file s).1 Button.next s').requests = s'.requests ++ [nextURL]) ∧
      parseIdentity nextURL = PageIdentity.weekPage (Value.num (w + 1)) (Value.num y) ∧
      parseIdentity prevURL = PageIdentity.weekPage (Value.num (w - 1)) (Value.num y) := by
  obtain ⟨g1, g2, hk, hw, hy⟩ := kwMatch_of_weekPage file _ _ h
  rw [setup_week net file g1 g2 s hk, hw, hy]
  refine ⟨kwURL (Value.num (w - 1)) (Value.num y), kwURL (Value.num (w + 1)) (Value.num y),
    ?_, ?_, ?_, ?_⟩
  · intro s'
    exact click_weekHandler_requests net _ Button.previous _ s' rfl
  · intro s'
    exact click_weekHandler_requests net _ Button.next _ s' rfl
  · obtain ⟨a, rfl⟩ := Int.eq_ofNat_of_zero_le (show (0 : Int) ≤ w by omega)
    obtain ⟨b, rfl⟩ := Int.eq_ofNat_of_zero_le (show (0 : Int) ≤ y by omega)
    have e : (a : Int) + 1 = ((a + 1 : Nat) : Int) := by push_cast; rfl
    rw [e]
    exact parseIdentity_kwURL (a + 1) b (by omega) (by omega) (by omega)
  · obtain ⟨a, rfl⟩ := Int.eq_ofNat_of_zero_le (show (0 : Int) ≤ w by omega)
    obtain ⟨b, rfl⟩ := Int.eq_ofNat_of_zero_le (show (0 : Int) ≤ y by omega)
    have e : (a : Int) - 1 = ((a - 1 : Nat) : Int) := by omega
    rw [e]
    exact parseIdentity_kwURL (a - 1) b (by omega) (by omega) (by omega)

/-- C10 at kw_46_2025.html: the neighbours kw_47_2025.html and kw_45_2025.html are week pages
again; outside the bounds, kw_100_2025.html, kw_-1_2025.html and kw_5_999.html are not. -/
theorem neighbour_urls_in_template_witness :
    (parseIdentity "kw_46_2025.html".toList =
        PageIdentity.weekPage (Value.num 46) (Value.num 2025) ∧
      ∃ prevURL nextURL : Str,
        (∀ s' : Browser,
          (click (setup (oracleOf []) "kw_46_2025.html".toList Browser.fresh).1
            Button.previous s').requests = s'.requests ++ [prevURL]) ∧
        (∀ s' : Browser,
          (click (setup (oracleOf []) "kw_46_2025.html".toList Browser.fresh).1
            Button.next s').requests = s'.requests ++ [nextURL]) ∧
        parseIdentity nextURL = PageIdentity.weekPage (Value.num (46 + 1)) (Value.num 2025) ∧
        parseIdentity prevURL = PageIdentity.weekPage (Value.num (46 - 1)) (Value.num 2025)) ∧
      parseIdentity (kwURL (Value.num (99 + 1)) (Value.num 2025)) = PageIdentity.otherPage ∧
      parseIdentity (kwURL (Value.num (0 - 1)) (Value.num 2025)) = PageIdentity.otherPage ∧
      parseIdentity (kwURL (Value.num 5) (Value.num 999)) = PageIdentity.otherPage :=
  ⟨⟨by decide, neighbour_urls_in_template (oracleOf []) "kw_46_2025.html".toList 46 2025
      Browser.fresh (by decide) (by decide) (by decide) (by decide) (by decide)⟩,
    by decide, by decide, by decide⟩

/-- C5, the scenarios of the specification, for both names of the index page: with exactly
the pages of weeks 3, 5 and 9 present, Previous navigates to kw_9_2025.html and Next to
kw_3_2025.html; with no week page present, neither click navigates. -/
theorem index_page_click_witness :
    parseIdentity "index.html".toList = PageIdentity.indexPage ∧
      parseIdentity [] = PageIdentity.indexPage ∧
      (click (setup
          (oracleOf ["kw_3_2025.html".toList, "kw_5_2025.html".toList,
            "kw_9_2025.html".toList])
          "index.html".toList Browser.fresh).1 Button.previous Browser.fresh).navigations =
        ["kw_9_2025.html".toList] ∧
      (click (setup
          (oracleOf ["kw_3_2025.html".toList, "kw_5_2025.html".toList,
            "kw_9_2025.html".toList])
          "index.html".toList Browser.fresh).1 Button.next Browser.fresh).navigations =
        ["kw_3_2025.html".toList] ∧
      (click (setup (oracleOf []) [] Browser.fresh).1 Button.previous
          Browser.fresh).navigations = [] ∧
      (click (setup (oracleOf []) [] Browser.fresh).1 Button.next
          Browser.fresh).navigations = [] := by
  obtain ⟨_, range, hr, _, _, hfound, _⟩ := index_page_click
    (oracleOf ["kw_3_2025.html".toList, "kw_5_2025.html".toList, "kw_9_2025.html".toList])
    "index.html".toList Browser.fresh Browser.fresh (by decide)
  obtain ⟨_, _, _, _, _, _, hnone⟩ := index_page_click (oracleOf []) [] Browser.fresh
    Browser.fresh (by decide)
  obtain ⟨hp, hn⟩ := hfound ⟨3, by omega, by omega, by decide⟩
  obtain ⟨hp0, hn0⟩ := hnone (fun k _ _ => by simp [weekExists, probeSucceeds, oracleOf])
  rw [findFirstAndLastWeek_eq] at hr
  simp only [Except.ok.injEq] at hr
  have h3 := (scanFirst_eq_num (weekExists
    (oracleOf ["kw_3_2025.html".toList, "kw_5_2025.html".toList, "kw_9_2025.html".toList])
    2025 Browser.fresh.requests) 3).mpr ⟨by omega, by omega, by decide, by
      intro j h1 h2
      interval_cases j <;> decide⟩
  have h9 := (scanLast_eq_num (weekExists
    (oracleOf ["kw_3_2025.html".toList, "kw_5_2025.html".toList, "kw_9_2025.html".toList])
    2025 Browser.fresh.requests) 9).mpr ⟨by omega, by omega, by decide, by
      intro j h1 h2
      interval_cases j <;> decide⟩
  rw [← hr] at hp hn
  simp only [h3, h9] at hp hn
  refine ⟨by decide, by decide, ?_, ?_, ?_, ?_⟩
  · rw [hp]; decide
  · rw [hn]; decide
  · rw [hp0]; rfl
  · rw [hn0]; rfl

/-- C6 at about.html: the page is an other page; Previous, Next and Home clicked in a row
navigate to index.html three times and no probe is issued. -/
theorem other_page_click_witness :
    parseIdentity "about.html".toList = PageIdentity.otherPage ∧
      clicks (setup (oracleOf []) "about.html".toList Browser.fresh).1
          [Button.previous, Button.next, Button.home]
          (setup (oracleOf []) "about.html".toList Browser.fresh).2 =
        { requests := [],
          navigations := ["index.html".toList, "index.html".toList, "index.html".toList],
          defaultPrevented := true } ∧
      (∀ buttons : List Button,
        (clicks (setup (oracleOf []) "about.html".toList Browser.fresh).1 buttons
          (setup (oracleOf []) "about.html".toList Browser.fresh).2).requests = []) :=
  ⟨by decide, by decide,
    (other_page_click (oracleOf []) "about.html".toList Browser.fresh (by decide)).2.2⟩

end Wochenbericht
